import Mathlib

/-!
Verification of `txttoexel.py`: a streaming ETL utility that converts a
colon-delimited text file into batches of spreadsheet rows, keeping the
columns Phone, FirstName, LastName and a normalized City field.

The development shallowly embeds the Python string primitives the script
uses (`str.split`, `str.strip`, `str.lower`, `re.sub` with `\s+` and a
replacement count, `re.fullmatch` on `[0-9\-]+`) as executable functions on
`List Char` / `String`, then embeds `parse_rows`, the chunking driver
`process_txt`, and the command-line entry point, and proves the stated
properties about them.
-/

namespace TxtToExel

/-! ## Python string primitives -/

/-- ASCII whitespace as matched by Python's `\s` and stripped by `str.strip()`
(restricted to the ASCII range: space, tab, newline, carriage return,
vertical tab, form feed). -/
def isPySpace (c : Char) : Bool :=
  c = ' ' || c = '\t' || c = '\n' || c = '\r' || c = '\x0b' || c = '\x0c'

/-- `str.split(sep)` on a list of characters: split at every occurrence of
`sep`, keeping empty segments; the result is always non-empty. -/
def splitChars (sep : Char) : List Char → List (List Char)
  | [] => [[]]
  | c :: cs =>
    if c = sep then [] :: splitChars sep cs
    else
      match splitChars sep cs with
      | [] => [[c]]
      | h :: t => (c :: h) :: t

/-- Python `line.split(sep)` for a one-character separator. -/
def pySplit (sep : Char) (s : String) : List String :=
  (splitChars sep s.data).map (fun l => String.mk l)

/-- Python `str.strip()` (whitespace from both ends). -/
def pyStrip (s : String) : String :=
  String.mk (((s.data.dropWhile isPySpace).reverse.dropWhile isPySpace).reverse)

/-- Python `str.lower()` (ASCII case folding, which covers every token the
script compares against). -/
def pyLower (s : String) : String :=
  String.mk (s.data.map Char.toLower)

/-- Python `raw_line.rstrip("\n")`: drop every trailing newline character. -/
def rstripNewline (s : String) : String :=
  String.mk ((s.data.reverse.dropWhile (fun c => c = '\n')).reverse)

/-- `re.sub(r"\s+", sep, ·, count=n)` on a character list, as a single
left-to-right pass: replace the first `n` maximal runs of whitespace by the
single character `sep`.  The `inRun` flag records that the current
whitespace run has already received its replacement character, so further
whitespace of the same run is dropped. -/
def reSubWsAux (sep : Char) : Nat → Bool → List Char → List Char
  | _, _, [] => []
  | n, true, c :: cs =>
    if isPySpace c then reSubWsAux sep n true cs
    else if n = 0 then c :: cs
    else c :: reSubWsAux sep n false cs
  | n, false, c :: cs =>
    if n = 0 then c :: cs
    else if isPySpace c then sep :: reSubWsAux sep (n - 1) true cs
    else c :: reSubWsAux sep n false cs

/-- `re.sub(r"\s+", sep, ·, count=n)` on a character list. -/
def reSubWs (sep : Char) (n : Nat) (l : List Char) : List Char :=
  reSubWsAux sep n false l

/-- `re.sub(r"\s+", sep, line, count=n)` on a string. -/
def reSubWsStr (sep : Char) (n : Nat) (s : String) : String :=
  String.mk (reSubWs sep n s.data)

/-- `re.fullmatch(r"[0-9\-]+", value)`: the string is non-empty and made only
of ASCII digits and hyphens. -/
def isDigitsHyphens (s : String) : Bool :=
  !s.isEmpty && s.data.all (fun c => c.isDigit || c = '-')

/-! ## Configuration constants of the script -/

def COL_SEP : Char := ':'
def PHONE_COL : Nat := 0
def FIRST_COL : Nat := 2
def LAST_COL : Nat := 3
def CITY_COL : Nat := 5
def CHUNK_LIMIT : Nat := 1000000

/-- The maximum required column index `max(PHONE_COL, FIRST_COL, LAST_COL,
CITY_COL)` appearing in the sufficiency guard. -/
def maxRequiredCol : Nat := max (max PHONE_COL FIRST_COL) (max LAST_COL CITY_COL)

/-- The `skip_tokens` set of `parse_rows`: known non-location tokens (gender
and relationship-status values), compared case-insensitively. -/
def skip_tokens : List String :=
  ["male", "female", "single", "married", "widowed",
   "divorced", "engaged", "in a relationship", "it\x27s complicated"]

/-- A normalized record `(phone, first, last, city)`. -/
abbrev Record := String × String × String × String

/-! ## Row normalizer (`parse_rows`, per line) -/

/-- The location-extraction loop `for token in parts[5:]` of `parse_rows`:
the four exclusion checks in source order (blank, known token, date-like
slash, digits-and-hyphens); the first surviving stripped value is returned,
and `""` if none survives. -/
def findLocation : List String → String
  | [] => ""
  | token :: ts =>
    let value := pyStrip token
    if value.isEmpty then findLocation ts
    else if skip_tokens.contains (pyLower value) then findLocation ts
    else if value.data.contains '/' then findLocation ts
    else if isDigitsHyphens value then findLocation ts
    else value

/-- A field survives all four exclusion checks of the location-extraction
loop: its stripped value is non-empty, is not a case-insensitive member of
`skip_tokens`, contains no slash, and is not made of digits and hyphens
only. -/
def qualifies (token : String) : Bool :=
  let value := pyStrip token
  !value.isEmpty && !(skip_tokens.contains (pyLower value))
    && !(value.data.contains '/') && !(isDigitsHyphens value)

/-- The comma-split segments of a location candidate:
`[seg.strip() for seg in location_raw.split(",") if seg.strip()]`. -/
def citySegments (location_raw : String) : List String :=
  ((pySplit ',' location_raw).map pyStrip).filter (fun s => !s.isEmpty)

/-- The city-field normalization of `parse_rows` (lines 95-105): an empty
candidate produces an empty city field; a candidate containing a comma is
split into trimmed non-empty segments and rendered `"country: city"` from the
last and first segment; otherwise the candidate is used verbatim. -/
def normalizeCity (location_raw : String) : String :=
  if location_raw.isEmpty then ""
  else if location_raw.data.contains ',' then
    match citySegments location_raw with
    | [] => ""
    | h :: t => (t.getLastD h) ++ ": " ++ h
  else location_raw

/-- The field vector of one (already newline-stripped) line: the naive split
on `COL_SEP`, repaired by replacing the first two whitespace runs with the
delimiter exactly when the naive split has too few fields to cover
`maxRequiredCol`. -/
def fieldVector (line : String) : List String :=
  let parts := pySplit COL_SEP line
  if parts.length ≤ maxRequiredCol then pySplit COL_SEP (reSubWsStr COL_SEP 2 line)
  else parts

/-- One iteration of `parse_rows`, with list indexing made fallible the way
Python's is: `Except.error` models an uncaught `IndexError`, `Except.ok none`
models a silently skipped line, `Except.ok (some r)` models a yielded tuple. -/
def parseLineE (raw_line : String) : Except String (Option Record) :=
  let line := rstripNewline raw_line
  let parts := fieldVector line
  if maxRequiredCol < parts.length then
    match parts[PHONE_COL]?, parts[FIRST_COL]?, parts[LAST_COL]? with
    | some phone, some first, some last =>
      let location_raw := findLocation (parts.drop CITY_COL)
      Except.ok (some (pyStrip phone, pyStrip first, pyStrip last, normalizeCity location_raw))
    | _, _, _ => Except.error "IndexError"
  else Except.ok none

/-- `parse_rows` restricted to one line, as the total function it turns out
to be: `some` a record, or `none` for a skipped line. -/
def parseLine (raw_line : String) : Option Record :=
  match parseLineE raw_line with
  | Except.ok r => r
  | Except.error _ => none

/-- `parse_rows` over a whole file, given as its list of raw lines. -/
def parse_rows (lines : List String) : List Record :=
  lines.filterMap parseLine

/-! ## Chunked driver (`process_txt`) -/

/-- The driver loop of `process_txt`: append each record to the buffer, flush
a full buffer as `(part_no, buffer)` and move to the next part number, and
flush a non-empty remainder at the end.  The returned list records the
`write_chunk` calls in order. -/
def driverLoop (limit : Nat) (part_no : Nat) (buffer : List Record) :
    List Record → List (Nat × List Record)
  | [] => if buffer.isEmpty then [] else [(part_no, buffer)]
  | row :: rest =>
    if (buffer ++ [row]).length = limit then
      (part_no, buffer ++ [row]) :: driverLoop limit (part_no + 1) [] rest
    else driverLoop limit part_no (buffer ++ [row]) rest

/-- `process_txt` on an already-normalized record stream: the sequence of
`(part_no, rows)` workbook writes it performs. -/
def processRecords (records : List Record) : List (Nat × List Record) :=
  driverLoop CHUNK_LIMIT 1 [] records

/-- `process_txt` on the input file's raw lines. -/
def process_txt (lines : List String) : List (Nat × List Record) :=
  processRecords (parse_rows lines)

/-! ## Command-line entry point -/

/-- The environment the `__main__` block consults: the argument vector
(including the program name), the `*.txt` files found in the current working
directory, and which paths name existing regular files. -/
structure CliEnv where
  argv : List String
  cwdTxtFiles : List String
  isFile : String → Bool

/-- Outcome of the `__main__` block before `process_txt` runs: either the
chosen input path (with a flag recording whether its name was printed as a
discovered file) or an early exit. -/
inductive CliOutcome where
  | run (path : String) (printedDiscovery : Bool)
  | usageExit
  | fileNotFoundExit (path : String)
deriving DecidableEq, Repr

/-- The final `is_file` check of the `__main__` block: run on an existing
file, exit with an error message otherwise. -/
def checkFile (env : CliEnv) (path : String) (printed : Bool) : CliOutcome :=
  if env.isFile path then CliOutcome.run path printed
  else CliOutcome.fileNotFoundExit path

/-- The `__main__` block (lines 143-161): with exactly one real argument use
it as the path; otherwise use the unique `*.txt` file of the working
directory and print its name, or print usage guidance and exit 1; then exit
with an error message if the chosen path is not a file. -/
def cliMain (env : CliEnv) : CliOutcome :=
  if env.argv.length = 2 then checkFile env (env.argv.getD 1 "") false
  else
    match env.cwdTxtFiles with
    | [f] => checkFile env f true
    | _ => CliOutcome.usageExit

/-- Process exit status of each outcome: `sys.exit(1)` for the usage path,
`sys.exit(message)` (status 1) for a missing file, 0 on a completed run. -/
def exitStatus : CliOutcome → Nat
  | CliOutcome.run _ _ => 0
  | CliOutcome.usageExit => 1
  | CliOutcome.fileNotFoundExit _ => 1

/-! ## Helper lemmas -/

/-- A string containing a character is not empty. -/
lemma isEmpty_false_of_contains (s : String) (c : Char)
    (h : s.data.contains c = true) : s.isEmpty = false := by
  rw [Bool.eq_false_iff]
  intro he
  rw [String.isEmpty_iff] at he
  subst he
  simp at h

/-- `findLocation` is the first-match scan: it returns the stripped value of
the first field satisfying `qualifies`, and `""` when none does. -/
lemma findLocation_eq_find? (ts : List String) :
    findLocation ts = ((ts.find? qualifies).map pyStrip).getD "" := by
  induction ts with
  | nil => rfl
  | cons t ts ih =>
    simp only [findLocation, List.find?_cons]
    by_cases h1 : (pyStrip t).isEmpty
    · simp [qualifies, h1, ih]
    · by_cases h2 : pyLower (pyStrip t) ∈ skip_tokens
      · simp [qualifies, h1, h2, ih]
      · by_cases h3 : '/' ∈ (pyStrip t).data
        · simp [qualifies, h1, h2, h3, ih]
        · by_cases h4 : isDigitsHyphens (pyStrip t)
          · simp [qualifies, h1, h2, h3, h4, ih]
          · simp [qualifies, h1, h2, h3, h4]

/-! ## Claim theorems: location normalization (C1, C7) -/

/-- C1. If the selected location candidate contains at least one comma and
splits into at least one trimmed non-empty segment, the emitted City field is
the last segment, `": "`, then the first segment (middle segments dropped);
a candidate without a comma is used verbatim; and the three spec examples
hold. -/
theorem c1_normalizeCity_spec :
    (∀ loc : String, ∀ h t, loc.data.contains ',' = true → citySegments loc = h :: t →
        normalizeCity loc = t.getLastD h ++ ": " ++ h)
    ∧ (∀ loc : String, loc.data.contains ',' = false → normalizeCity loc = loc)
    ∧ normalizeCity "Springfield, USA" = "USA: Springfield"
    ∧ normalizeCity "Springfield, Oregon, USA" = "USA: Springfield"
    ∧ normalizeCity "Springfield" = "Springfield" := by
  refine ⟨?_, ?_, by decide, by decide, by decide⟩
  · intro loc h t hc hseg
    have hne := isEmpty_false_of_contains loc ',' hc
    have hc2 : ',' ∈ loc.data := by simpa using hc
    simp [normalizeCity, hne, hc2, hseg]
  · intro loc hc
    by_cases he : loc.isEmpty
    · rw [String.isEmpty_iff] at he
      subst he
      rfl
    · have hc2 : ',' ∉ loc.data := by simpa using hc
      simp [normalizeCity, he, hc2]

/-- Witness for C1 at the concrete candidate `"Springfield, USA"`. -/
theorem c1_normalizeCity_spec_witness :
    "Springfield, USA".data.contains ',' = true
    ∧ citySegments "Springfield, USA" = "Springfield" :: ["USA"]
    ∧ normalizeCity "Springfield, USA" = ["USA"].getLastD "Springfield" ++ ": " ++ "Springfield" :=
  ⟨by decide, by decide,
    c1_normalizeCity_spec.1 "Springfield, USA" "Springfield" ["USA"] (by decide) (by decide)⟩

/-- C7. A candidate containing a comma whose split yields exactly one trimmed
non-empty segment produces `"segment: segment"`; in particular `"USA,"`
produces `"USA: USA"`. -/
theorem c7_single_segment :
    (∀ loc : String, ∀ s, loc.data.contains ',' = true → citySegments loc = [s] →
        normalizeCity loc = s ++ ": " ++ s)
    ∧ normalizeCity "USA," = "USA: USA" := by
  refine ⟨?_, by decide⟩
  intro loc s hc hseg
  have hne := isEmpty_false_of_contains loc ',' hc
  have hc2 : ',' ∈ loc.data := by simpa using hc
  simp [normalizeCity, hne, hc2, hseg, List.getLastD]

/-- Witness for C7 at the concrete candidate `"USA,"`. -/
theorem c7_single_segment_witness :
    "USA,".data.contains ',' = true
    ∧ citySegments "USA," = ["USA"]
    ∧ normalizeCity "USA," = "USA" ++ ": " ++ "USA" :=
  ⟨by decide, by decide, c7_single_segment.1 "USA," "USA" (by decide) (by decide)⟩

/-- The maximum required column index evaluates to the city column. -/
lemma maxRequiredCol_eq : maxRequiredCol = 5 := rfl

/-- On a line whose (possibly repaired) field vector is sufficient,
`parseLineE` yields the normalized record: the three index accesses are in
bounds under the guard. -/
lemma parseLineE_sufficient (raw : String)
    (h : maxRequiredCol < (fieldVector (rstripNewline raw)).length) :
    parseLineE raw = Except.ok (some
      (pyStrip ((fieldVector (rstripNewline raw)).getD PHONE_COL ""),
       pyStrip ((fieldVector (rstripNewline raw)).getD FIRST_COL ""),
       pyStrip ((fieldVector (rstripNewline raw)).getD LAST_COL ""),
       normalizeCity (findLocation ((fieldVector (rstripNewline raw)).drop CITY_COL)))) := by
  have hlen : 5 < (fieldVector (rstripNewline raw)).length := by
    rw [maxRequiredCol_eq] at h; exact h
  have h0 : PHONE_COL < (fieldVector (rstripNewline raw)).length := by
    unfold PHONE_COL; omega
  have h2 : FIRST_COL < (fieldVector (rstripNewline raw)).length := by
    unfold FIRST_COL; omega
  have h3 : LAST_COL < (fieldVector (rstripNewline raw)).length := by
    unfold LAST_COL; omega
  simp only [parseLineE, if_pos h, List.getElem?_eq_getElem h0,
    List.getElem?_eq_getElem h2, List.getElem?_eq_getElem h3,
    List.getD_eq_getElem?_getD, Option.getD_some]

/-- On a line whose field vector stays insufficient even after repair,
`parseLineE` silently skips. -/
lemma parseLineE_insufficient (raw : String)
    (h : (fieldVector (rstripNewline raw)).length ≤ maxRequiredCol) :
    parseLineE raw = Except.ok none := by
  simp only [parseLineE, if_neg (Nat.not_lt.mpr h)]

/-- `parseLine` on a sufficient line. -/
lemma parseLine_sufficient (raw : String)
    (h : maxRequiredCol < (fieldVector (rstripNewline raw)).length) :
    parseLine raw = some
      (pyStrip ((fieldVector (rstripNewline raw)).getD PHONE_COL ""),
       pyStrip ((fieldVector (rstripNewline raw)).getD FIRST_COL ""),
       pyStrip ((fieldVector (rstripNewline raw)).getD LAST_COL ""),
       normalizeCity (findLocation ((fieldVector (rstripNewline raw)).drop CITY_COL))) := by
  rw [parseLine, parseLineE_sufficient raw h]

/-- `parseLine` on an insufficient line. -/
lemma parseLine_insufficient (raw : String)
    (h : (fieldVector (rstripNewline raw)).length ≤ maxRequiredCol) :
    parseLine raw = none := by
  rw [parseLine, parseLineE_insufficient raw h]

/-! ## Claim theorems: location extraction (C2, C8) -/

/-- C2. The location candidate is the stripped value of the first field (in
scan order, none reconsidered later) that passes all four exclusion checks —
non-blank, not a known gender/relationship token, no slash, not only digits
and hyphens — and a field equal to `"Single"` in any letter case is skipped
with the next qualifying field chosen instead. -/
theorem c2_location_candidate :
    (∀ ts : List String, findLocation ts = ((ts.find? qualifies).map pyStrip).getD "")
    ∧ (∀ t : String, ∀ ts : List String, qualifies t = true →
        findLocation (t :: ts) = pyStrip t)
    ∧ (∀ t : String, ∀ ts : List String, qualifies t = false →
        findLocation (t :: ts) = findLocation ts)
    ∧ findLocation ["Single", " Springfield "] = "Springfield"
    ∧ findLocation ["sInGlE", "Paris"] = "Paris"
    ∧ findLocation ["SINGLE"] = "" := by
  refine ⟨findLocation_eq_find?, ?_, ?_, by decide, by decide, by decide⟩
  · intro t ts hq
    rw [findLocation_eq_find? (t :: ts), List.find?_cons, hq]
    rfl
  · intro t ts hq
    rw [findLocation_eq_find? (t :: ts), List.find?_cons, hq,
      findLocation_eq_find? ts]

/-- Witness for C2: the skip-token `"Single"` is passed over and the next
qualifying field wins. -/
theorem c2_location_candidate_witness :
    qualifies "Single" = false
    ∧ qualifies "Paris" = true
    ∧ findLocation ["Single", "Paris"] = findLocation ["Paris"]
    ∧ findLocation ["Paris"] = pyStrip "Paris" :=
  ⟨by decide, by decide,
    c2_location_candidate.2.2.1 "Single" ["Paris"] (by decide),
    c2_location_candidate.2.1 "Paris" [] (by decide)⟩

/-- C8. When no field at or after the city column qualifies, the candidate is
empty, a record is still emitted with an empty City field, and a selected
location never contains a slash; the concrete date-only line is emitted with
City `""`. -/
theorem c8_no_candidate_empty_city :
    (∀ ts : List String, (∀ t ∈ ts, qualifies t = false) → findLocation ts = "")
    ∧ (∀ ts : List String, (findLocation ts).data.contains '/' = false)
    ∧ (∀ raw : String, maxRequiredCol < (fieldVector (rstripNewline raw)).length →
        (∀ t ∈ (fieldVector (rstripNewline raw)).drop CITY_COL, qualifies t = false) →
        ∃ p f l, parseLine raw = some (p, f, l, ""))
    ∧ parseLine "p:x:f:l:g:09/01/1971" = some ("p", "f", "l", "") := by
  have hnone : ∀ ts : List String, (∀ t ∈ ts, qualifies t = false) → findLocation ts = "" := by
    intro ts hall
    rw [findLocation_eq_find?]
    have : ts.find? qualifies = none := by
      rw [List.find?_eq_none]
      intro t ht
      simp [hall t ht]
    rw [this]
    rfl
  refine ⟨hnone, ?_, ?_, by decide⟩
  · intro ts
    rw [findLocation_eq_find?]
    cases hf : ts.find? qualifies with
    | none => rfl
    | some t =>
      have hq := List.find?_some hf
      simp only [qualifies, Bool.and_eq_true, Bool.not_eq_true'] at hq
      simpa using hq.1.2
  · intro raw hsuff hall
    have hz : normalizeCity "" = "" := by decide
    exact ⟨_, _, _, by rw [parseLine_sufficient raw hsuff, hnone _ hall, hz]⟩

/-- Witness for C8 at the line whose only location-search field is a date. -/
theorem c8_no_candidate_empty_city_witness :
    maxRequiredCol < (fieldVector (rstripNewline "p:x:f:l:g:09/01/1971")).length
    ∧ (∃ p f l, parseLine "p:x:f:l:g:09/01/1971" = some (p, f, l, "")) :=
  ⟨by decide, c8_no_candidate_empty_city.2.2.1 "p:x:f:l:g:09/01/1971" (by decide) (by decide)⟩

/-! ## Claim theorem: totality of the normalizer (C10) -/

/-- C10. The per-line normalizer is total: on every input line it either
yields exactly one record or skips, and the fallible embedding never reaches
the index-error state, because the field accesses happen only under the
sufficiency guard; a line yields a record exactly when its (possibly
repaired) field vector covers the maximum required column index. -/
theorem c10_parse_total (raw : String) :
    parseLineE raw = Except.ok (parseLine raw)
    ∧ ((parseLine raw).isSome ↔ maxRequiredCol < (fieldVector (rstripNewline raw)).length) := by
  rcases Nat.lt_or_ge maxRequiredCol (fieldVector (rstripNewline raw)).length with h | h
  · rw [parseLineE_sufficient raw h, parseLine_sufficient raw h]
    simp [h]
  · rw [parseLineE_insufficient raw h, parseLine_insufficient raw h]
    simp [Nat.not_lt.mpr h]

/-! ## Claim theorems: delimiter repair and skipping (C3, C4) -/

/-- C3. The whitespace-run repair is applied exactly when the naive split on
the delimiter has too few fields to cover the maximum required column index,
and never otherwise; the concrete line `"a b:c:d:e:f:g"` has excess
whitespace the repair would rewrite, yet passes through unmodified because
its naive split is already sufficient. -/
theorem c3_repair_guard :
    (∀ line : String, maxRequiredCol < (pySplit COL_SEP line).length →
        fieldVector line = pySplit COL_SEP line)
    ∧ (∀ line : String, (pySplit COL_SEP line).length ≤ maxRequiredCol →
        fieldVector line = pySplit COL_SEP (reSubWsStr COL_SEP 2 line))
    ∧ fieldVector "a b:c:d:e:f:g" = pySplit COL_SEP "a b:c:d:e:f:g"
    ∧ reSubWsStr COL_SEP 2 "a b:c:d:e:f:g" ≠ "a b:c:d:e:f:g" := by
  refine ⟨?_, ?_, by decide, by decide⟩
  · intro line h
    rw [fieldVector, if_neg (Nat.not_le.mpr h)]
  · intro line h
    rw [fieldVector, if_pos h]

/-- Witness for C3 at the already-sufficient whitespace-bearing line. -/
theorem c3_repair_guard_witness :
    maxRequiredCol < (pySplit COL_SEP "a b:c:d:e:f:g").length
    ∧ fieldVector "a b:c:d:e:f:g" = pySplit COL_SEP "a b:c:d:e:f:g" :=
  ⟨by decide, c3_repair_guard.1 "a b:c:d:e:f:g" (by decide)⟩

/-- C4. A line that stays insufficient after the single repair attempt is
silently skipped — `parse_rows` emits no record for it and reaches no error
state — and over a whole file the number of emitted records is the number of
input lines minus the number of skipped lines. -/
theorem c4_silent_skip :
    (∀ raw : String, (fieldVector (rstripNewline raw)).length ≤ maxRequiredCol →
        parseLineE raw = Except.ok none)
    ∧ (∀ lines : List String,
        (parse_rows lines).length =
          lines.length - (lines.filter
            (fun l => (fieldVector (rstripNewline l)).length ≤ maxRequiredCol)).length) := by
  refine ⟨parseLineE_insufficient, ?_⟩
  intro lines
  induction lines with
  | nil => rfl
  | cons l ls ih =>
    have hfle := List.length_filter_le
      (fun l => decide ((fieldVector (rstripNewline l)).length ≤ maxRequiredCol)) ls
    rcases Nat.lt_or_ge maxRequiredCol (fieldVector (rstripNewline l)).length with h | h
    · rw [parse_rows] at ih ⊢
      rw [List.filterMap_cons_some (parseLine_sufficient l h), List.filter_cons,
        if_neg (by simpa using Nat.not_le.mpr h)]
      simp only [List.length_cons]
      omega
    · rw [parse_rows] at ih ⊢
      rw [List.filterMap_cons_none (parseLine_insufficient l h), List.filter_cons,
        if_pos (by simpa using h)]
      simp only [List.length_cons]
      omega

/-- Witness for C4 at a line with too few fields to repair. -/
theorem c4_silent_skip_witness :
    (fieldVector (rstripNewline "p:x:f")).length ≤ maxRequiredCol
    ∧ parseLineE "p:x:f" = Except.ok none :=
  ⟨by decide, c4_silent_skip.1 "p:x:f" (by decide)⟩

/-! ## Driver lemmas -/

/-- The flushed part numbers are consecutive, starting from the running part
number. -/
lemma driverLoop_map_fst (limit : Nat) :
    ∀ (l buffer : List Record) (part : Nat),
      (driverLoop limit part buffer l).map Prod.fst =
        List.range' part (driverLoop limit part buffer l).length := by
  intro l
  induction l with
  | nil =>
    intro buffer part
    by_cases hb : buffer.isEmpty
    · simp [driverLoop, hb]
    · simp [driverLoop, hb, List.range'_succ]
  | cons r rs ih =>
    intro buffer part
    simp only [driverLoop]
    by_cases hf : (buffer ++ [r]).length = limit
    · simp only [if_pos hf, List.map_cons, List.length_cons, List.range'_succ,
        List.cons.injEq, true_and]
      exact ih [] (part + 1)
    · simp only [if_neg hf]
      exact ih (buffer ++ [r]) part

/-- Concatenating the flushed chunks restores the buffered rows followed by
the remaining input rows. -/
lemma driverLoop_flatten (limit : Nat) :
    ∀ (l buffer : List Record) (part : Nat),
      ((driverLoop limit part buffer l).map Prod.snd).flatten = buffer ++ l := by
  intro l
  induction l with
  | nil =>
    intro buffer part
    by_cases hb : buffer.isEmpty
    · rw [List.isEmpty_iff] at hb
      simp [driverLoop, hb]
    · simp [driverLoop, hb]
  | cons r rs ih =>
    intro buffer part
    simp only [driverLoop]
    by_cases hf : (buffer ++ [r]).length = limit
    · simp only [if_pos hf, List.map_cons, List.flatten_cons]
      rw [ih [] (part + 1)]
      simp
    · simp only [if_neg hf]
      rw [ih (buffer ++ [r]) part]
      simp

/-- No flushed chunk exceeds the limit, provided the running buffer is below
it. -/
lemma driverLoop_size_le (limit : Nat) :
    ∀ (l buffer : List Record) (part : Nat), buffer.length < limit →
      ∀ c ∈ driverLoop limit part buffer l, c.2.length ≤ limit := by
  intro l
  induction l with
  | nil =>
    intro buffer part hb c hc
    by_cases he : buffer.isEmpty
    · simp [driverLoop, he] at hc
    · simp only [driverLoop, if_neg he, List.mem_singleton] at hc
      subst hc
      exact Nat.le_of_lt hb
  | cons r rs ih =>
    intro buffer part hb c hc
    simp only [driverLoop] at hc
    by_cases hf : (buffer ++ [r]).length = limit
    · rw [if_pos hf] at hc
      rcases List.mem_cons.mp hc with h | h
      · subst h
        exact Nat.le_of_eq hf
      · exact ih [] (part + 1) (by simpa using Nat.lt_of_le_of_lt (Nat.zero_le buffer.length) hb) c h
    · rw [if_neg hf] at hc
      have hlen : (buffer ++ [r]).length = buffer.length + 1 := by simp
      have hlt : (buffer ++ [r]).length < limit := by omega
      exact ih (buffer ++ [r]) part hlt c hc

/-- Every flushed chunk except possibly the last is exactly full, provided
the running buffer is below the limit. -/
lemma driverLoop_dropLast_size (limit : Nat) :
    ∀ (l buffer : List Record) (part : Nat), buffer.length < limit →
      ∀ c ∈ (driverLoop limit part buffer l).dropLast, c.2.length = limit := by
  intro l
  induction l with
  | nil =>
    intro buffer part hb c hc
    by_cases he : buffer.isEmpty
    · simp [driverLoop, he] at hc
    · simp [driverLoop, he] at hc
  | cons r rs ih =>
    intro buffer part hb c hc
    simp only [driverLoop] at hc
    by_cases hf : (buffer ++ [r]).length = limit
    · rw [if_pos hf] at hc
      cases hrest : driverLoop limit (part + 1) [] rs with
      | nil => rw [hrest] at hc; simp at hc
      | cons d ds =>
        rw [hrest, List.dropLast_cons₂] at hc
        rcases List.mem_cons.mp hc with h | h
        · subst h
          exact hf
        · have := ih [] (part + 1) (by simp only [List.length_nil]; omega) c
          rw [hrest] at this
          exact this h
    · rw [if_neg hf] at hc
      have hlen : (buffer ++ [r]).length = buffer.length + 1 := by simp
      have hlt : (buffer ++ [r]).length < limit := by omega
      exact ih (buffer ++ [r]) part hlt c hc

/-- The number of flushed chunks is the ceiling of the total row count over
the chunk limit. -/
lemma driverLoop_length :
    ∀ (l buffer : List Record) (part : Nat), buffer.length < CHUNK_LIMIT →
      (driverLoop CHUNK_LIMIT part buffer l).length =
        (buffer.length + l.length + (CHUNK_LIMIT - 1)) / CHUNK_LIMIT := by
  intro l
  induction l with
  | nil =>
    intro buffer part hb
    simp only [CHUNK_LIMIT] at hb ⊢
    by_cases he : buffer.isEmpty
    · rw [List.isEmpty_iff] at he
      simp [driverLoop, he]
    · have h1 : buffer.length ≠ 0 := by
        intro h0
        exact he (List.isEmpty_iff.mpr (List.length_eq_zero.mp h0))
      simp only [driverLoop, List.isEmpty_iff]
      rw [if_neg (fun h => h1 (by simp [h]))]
      simp only [List.length_singleton, List.length_nil, Nat.add_zero]
      omega
  | cons r rs ih =>
    intro buffer part hb
    simp only [driverLoop]
    have hlen : (buffer ++ [r]).length = buffer.length + 1 := by simp
    by_cases hf : (buffer ++ [r]).length = CHUNK_LIMIT
    · rw [if_pos hf]
      simp only [List.length_cons]
      rw [ih [] (part + 1) (by simp [CHUNK_LIMIT])]
      simp only [List.length_nil, List.length_cons, CHUNK_LIMIT] at hb hf hlen ⊢
      omega
    · rw [if_neg hf]
      have hlt : (buffer ++ [r]).length < CHUNK_LIMIT := by omega
      rw [ih (buffer ++ [r]) part hlt]
      simp only [List.length_cons, CHUNK_LIMIT] at hb hf hlen ⊢
      omega

/-- When at least a full chunk of rows is available, the driver flushes the
first full chunk and continues on the rest with the next part number. -/
lemma driverLoop_flush_general :
    ∀ (l buffer : List Record) (part : Nat), buffer.length < CHUNK_LIMIT →
      CHUNK_LIMIT ≤ buffer.length + l.length →
      driverLoop CHUNK_LIMIT part buffer l =
        (part, buffer ++ l.take (CHUNK_LIMIT - buffer.length)) ::
          driverLoop CHUNK_LIMIT (part + 1) [] (l.drop (CHUNK_LIMIT - buffer.length)) := by
  intro l
  induction l with
  | nil =>
    intro buffer part hb habs
    simp only [List.length_nil, Nat.add_zero] at habs
    omega
  | cons r rs ih =>
    intro buffer part hb hge
    simp only [driverLoop]
    by_cases hf : (buffer ++ [r]).length = CHUNK_LIMIT
    · rw [if_pos hf]
      have hk : CHUNK_LIMIT - buffer.length = 1 := by
        simp only [List.length_append, List.length_singleton] at hf
        omega
      rw [hk]
      simp
    · rw [if_neg hf]
      have hlt : (buffer ++ [r]).length < CHUNK_LIMIT := by
        simp only [List.length_append, List.length_singleton] at hf ⊢
        omega
      have hge2 : CHUNK_LIMIT ≤ (buffer ++ [r]).length + rs.length := by
        simp only [List.length_append, List.length_singleton]
        simp only [List.length_cons] at hge
        omega
      rw [ih (buffer ++ [r]) part hlt hge2]
      have hk : CHUNK_LIMIT - buffer.length = (CHUNK_LIMIT - (buffer ++ [r]).length) + 1 := by
        simp only [List.length_append, List.length_singleton] at hlt ⊢
        omega
      rw [hk, List.take_succ_cons, List.drop_succ_cons]
      simp

/-- When the available rows cannot fill a chunk, the driver performs at most
the one final remainder flush. -/
lemma driverLoop_remainder :
    ∀ (l buffer : List Record) (part : Nat), buffer.length + l.length < CHUNK_LIMIT →
      driverLoop CHUNK_LIMIT part buffer l =
        if (buffer ++ l).isEmpty then [] else [(part, buffer ++ l)] := by
  intro l
  induction l with
  | nil =>
    intro buffer part h
    simp [driverLoop]
  | cons r rs ih =>
    intro buffer part h
    simp only [driverLoop]
    have hf : (buffer ++ [r]).length ≠ CHUNK_LIMIT := by
      simp only [List.length_append, List.length_singleton]
      simp only [List.length_cons] at h
      omega
    rw [if_neg hf]
    have hlt : (buffer ++ [r]).length + rs.length < CHUNK_LIMIT := by
      simp only [List.length_append, List.length_singleton]
      simp only [List.length_cons] at h
      omega
    rw [ih (buffer ++ [r]) part hlt]
    simp

/-! ## Claim theorems: batching (C5, C6) -/

/-- C5. The driver writes `ceil(Q / CHUNK_LIMIT)` workbooks for `Q`
qualifying records; with `Q = 2500000` it writes parts 1, 2, 3 in that order
holding 1000000, 1000000 and 500000 rows; with no qualifying records it
writes nothing, including when every input line is malformed. -/
theorem c5_batching :
    (∀ records : List Record,
        (processRecords records).length =
          (records.length + (CHUNK_LIMIT - 1)) / CHUNK_LIMIT)
    ∧ (∀ records : List Record, records.length = 2500000 →
        (processRecords records).map (fun c => (c.1, c.2.length)) =
          [(1, 1000000), (2, 1000000), (3, 500000)])
    ∧ processRecords [] = []
    ∧ (∀ lines : List String, (∀ l ∈ lines, parseLine l = none) →
        process_txt lines = []) := by
  refine ⟨?_, ?_, by decide, ?_⟩
  · intro records
    rw [processRecords, driverLoop_length records [] 1 (by simp [CHUNK_LIMIT])]
    simp
  · intro records h
    rw [processRecords]
    rw [driverLoop_flush_general records [] 1 (by simp [CHUNK_LIMIT])
      (by simp only [List.length_nil, Nat.zero_add, h]; norm_num [CHUNK_LIMIT])]
    simp only [List.length_nil, Nat.sub_zero, List.nil_append]
    have hd1 : (records.drop CHUNK_LIMIT).length = 1500000 := by
      rw [List.length_drop, h]; norm_num [CHUNK_LIMIT]
    rw [driverLoop_flush_general (records.drop CHUNK_LIMIT) [] 2 (by simp [CHUNK_LIMIT])
      (by simp only [List.length_nil, Nat.zero_add, hd1]; norm_num [CHUNK_LIMIT])]
    simp only [List.length_nil, Nat.sub_zero, List.nil_append]
    have hd2 : ((records.drop CHUNK_LIMIT).drop CHUNK_LIMIT).length = 500000 := by
      rw [List.length_drop, hd1]; norm_num [CHUNK_LIMIT]
    rw [driverLoop_remainder ((records.drop CHUNK_LIMIT).drop CHUNK_LIMIT) [] 3
      (by simp only [List.length_nil, Nat.zero_add, hd2]; norm_num [CHUNK_LIMIT])]
    have hne : (((records.drop CHUNK_LIMIT).drop CHUNK_LIMIT)).isEmpty = false := by
      rw [Bool.eq_false_iff]
      intro he
      rw [List.isEmpty_iff] at he
      rw [he] at hd2
      simp at hd2
    simp only [List.nil_append, hne, Bool.false_eq_true, if_false, List.map_cons,
      List.map_nil]
    have ht1 : (records.take CHUNK_LIMIT).length = 1000000 := by
      rw [List.length_take, h]; simp only [CHUNK_LIMIT]; omega
    have ht2 : ((records.drop CHUNK_LIMIT).take CHUNK_LIMIT).length = 1000000 := by
      rw [List.length_take, hd1]; simp only [CHUNK_LIMIT]; omega
    rw [ht1, ht2, hd2]
  · intro lines hall
    rw [process_txt, parse_rows, List.filterMap_eq_nil_iff.mpr hall]
    decide

/-- Witness for C5 on a concrete stream of 2500000 blank records. -/
theorem c5_batching_witness :
    (List.replicate 2500000 (("", "", "", "") : Record)).length = 2500000
    ∧ (processRecords (List.replicate 2500000 (("", "", "", "") : Record))).map
        (fun c => (c.1, c.2.length)) = [(1, 1000000), (2, 1000000), (3, 500000)] :=
  ⟨by rw [List.length_replicate], c5_batching.2.1 _ (by rw [List.length_replicate])⟩

/-- C6. Driver-loop invariants: every flushed chunk holds at most
`CHUNK_LIMIT` records and every chunk but the last is exactly full; part
numbers run 1, 2, … in flush order with no gaps or reuse; and the flushed
chunks concatenate back to the input records (each appended record is a
4-field string tuple by construction of `Record`). -/
theorem c6_driver_invariants :
    (∀ records : List Record, ∀ c ∈ processRecords records, c.2.length ≤ CHUNK_LIMIT)
    ∧ (∀ records : List Record, ∀ c ∈ (processRecords records).dropLast,
        c.2.length = CHUNK_LIMIT)
    ∧ (∀ records : List Record,
        (processRecords records).map Prod.fst =
          List.range' 1 (processRecords records).length)
    ∧ (∀ records : List Record,
        ((processRecords records).map Prod.snd).flatten = records) := by
  refine ⟨?_, ?_, ?_, ?_⟩
  · intro records
    exact driverLoop_size_le CHUNK_LIMIT records [] 1 (by simp [CHUNK_LIMIT])
  · intro records
    exact driverLoop_dropLast_size CHUNK_LIMIT records [] 1 (by simp [CHUNK_LIMIT])
  · intro records
    exact driverLoop_map_fst CHUNK_LIMIT records [] 1
  · intro records
    simpa using driverLoop_flatten CHUNK_LIMIT records [] 1

/-- Witness for C6 on a concrete one-record stream. -/
theorem c6_driver_invariants_witness :
    (1, [(("", "", "", "") : Record)]) ∈ processRecords [("", "", "", "")]
    ∧ [(("", "", "", "") : Record)].length ≤ CHUNK_LIMIT :=
  ⟨by decide, c6_driver_invariants.1 [("", "", "", "")] (1, [("", "", "", "")]) (by decide)⟩

/-! ## Claim theorem: command-line behaviour (C9) -/

/-- C9. With no path argument the program uses the unique `*.txt` file of the
working directory, printing its name; with zero or several such files it
prints usage guidance and exits non-zero; a chosen path that is not an
existing file exits non-zero; and a completed run exits 0. -/
theorem c9_cli_behaviour :
    (∀ env : CliEnv, env.argv.length ≠ 2 → ∀ f, env.cwdTxtFiles = [f] →
        env.isFile f = true →
        cliMain env = CliOutcome.run f true ∧ exitStatus (cliMain env) = 0)
    ∧ (∀ env : CliEnv, env.argv.length ≠ 2 → env.cwdTxtFiles.length ≠ 1 →
        cliMain env = CliOutcome.usageExit ∧ exitStatus (cliMain env) ≠ 0)
    ∧ (∀ env : CliEnv, ∀ p, cliMain env = CliOutcome.fileNotFoundExit p →
        env.isFile p = false ∧ exitStatus (cliMain env) ≠ 0)
    ∧ (∀ env : CliEnv, ∀ p b, cliMain env = CliOutcome.run p b →
        env.isFile p = true ∧ exitStatus (cliMain env) = 0) := by
  have hnf : ∀ env path pr p, checkFile env path pr = CliOutcome.fileNotFoundExit p →
      env.isFile p = false := by
    intro env path pr p h
    unfold checkFile at h
    by_cases hex : env.isFile path
    · rw [if_pos hex] at h
      cases h
    · rw [if_neg hex] at h
      cases h
      exact Bool.eq_false_iff.mpr hex
  have hrun : ∀ env path pr p b, checkFile env path pr = CliOutcome.run p b →
      env.isFile p = true := by
    intro env path pr p b h
    unfold checkFile at h
    by_cases hex : env.isFile path
    · rw [if_pos hex] at h
      cases h
      exact hex
    · rw [if_neg hex] at h
      cases h
  refine ⟨?_, ?_, ?_, ?_⟩
  · intro env ha f hf hex
    have hc : cliMain env = CliOutcome.run f true := by
      rw [cliMain, if_neg ha, hf]
      show checkFile env f true = CliOutcome.run f true
      unfold checkFile
      rw [if_pos hex]
    exact ⟨hc, by rw [hc]; rfl⟩
  · intro env ha h1
    have hc : cliMain env = CliOutcome.usageExit := by
      rw [cliMain, if_neg ha]
      match he : env.cwdTxtFiles with
      | [] => rfl
      | [f] => rw [he] at h1; simp at h1
      | f :: g :: t => rfl
    exact ⟨hc, by rw [hc]; exact Nat.one_ne_zero⟩
  · intro env p hp
    refine ⟨?_, by rw [hp]; exact Nat.one_ne_zero⟩
    rw [cliMain] at hp
    by_cases ha : env.argv.length = 2
    · rw [if_pos ha] at hp
      exact hnf env _ false p hp
    · rw [if_neg ha] at hp
      match he : env.cwdTxtFiles with
      | [] => rw [he] at hp; cases hp
      | [f] => rw [he] at hp; exact hnf env f true p hp
      | f :: g :: t => rw [he] at hp; cases hp
  · intro env p b hp
    refine ⟨?_, by rw [hp]; rfl⟩
    rw [cliMain] at hp
    by_cases ha : env.argv.length = 2
    · rw [if_pos ha] at hp
      exact hrun env _ false p b hp
    · rw [if_neg ha] at hp
      match he : env.cwdTxtFiles with
      | [] => rw [he] at hp; cases hp
      | [f] => rw [he] at hp; exact hrun env f true p b hp
      | f :: g :: t => rw [he] at hp; cases hp

/-- Witness for C9 on a concrete environment with one discovered file. -/
theorem c9_cli_behaviour_witness :
    cliMain ⟨["txttoexel.py"], ["input.txt"], fun _ => true⟩ =
        CliOutcome.run "input.txt" true
    ∧ exitStatus (cliMain ⟨["txttoexel.py"], ["input.txt"], fun _ => true⟩) = 0 :=
  c9_cli_behaviour.1 ⟨["txttoexel.py"], ["input.txt"], fun _ => true⟩
    (by decide) "input.txt" rfl rfl

end TxtToExel
